import Mathlib

/-!
Verification of the SnapStream capture/stitch core.

The definitions below are a shallow embedding of the repository source:
  - types.ts                      : the CapturedFrame record and enums
  - components/StitchEditor.tsx   : composite dimensions and the sequential
                                    drawImages layout loop
  - App.tsx                       : handleDeleteFrame and handleReorderFrame
  - components/CaptureStage.tsx   : captureFrame, generateId, the Single mode
                                    trigger handler
  - services/geminiService.ts     : response handling of analyzeScreenshot

Pixel dimensions and timestamps are natural numbers; the horizontal offset
computed by the layout loop is a rational, because the source divides by 2
with ordinary (non-integer) division. Stateful canvas drawing is embedded as
an explicit canvas record accumulating draw commands; assigning the canvas
width/height resets the drawing surface, exactly as it does for an HTML
canvas element.
-/

namespace Capture

/-- Frame record from types.ts (`CapturedFrame`): id, dataUrl, width, height,
timestamp. -/
structure CapturedFrame where
  id : String
  dataUrl : String
  width : Nat
  height : Nat
  timestamp : Nat
deriving Repr, DecidableEq, Inhabited

/-- Reorder direction from App.tsx / StitchEditor.tsx (the string union
`up | down`). -/
inductive Direction where
  | up
  | down
deriving Repr, DecidableEq

/-! ## StitchEditor.tsx : composite dimensions and layout -/

/-- `Math.max(...frames.map(f => f.width))` from StitchEditor.tsx line 38.
The render effect only evaluates this for a non-empty collection (the empty
case returns before reaching it), where the fold with identity 0 is the
maximum of the widths. -/
def maxWidth (frames : List CapturedFrame) : Nat :=
  (frames.map (fun f => f.width)).foldl max 0

/-- `frames.reduce((acc, f) => acc + f.height, 0)` from StitchEditor.tsx
line 39. -/
def totalHeight (frames : List CapturedFrame) : Nat :=
  frames.foldl (fun acc f => acc + f.height) 0

/-- One `ctx.drawImage(img, x, yOffset)` placement performed by the
sequential `drawImages` loop: the frame drawn, its horizontal offset and its
vertical offset. -/
structure Placement where
  frame : CapturedFrame
  x : Rat
  y : Nat
deriving Repr, DecidableEq

/-- The body of the sequential-await loop in `drawImages`
(StitchEditor.tsx lines 73-90): starting from a running `yOffset`, each frame
is placed at `x = (maxWidth - frame.width) / 2` and the current `yOffset`,
after which `yOffset` grows by the frame height. -/
def drawImagesFrom (mw : Nat) : Nat → List CapturedFrame → List Placement
  | _, [] => []
  | yOffset, f :: fs =>
    { frame := f, x := ((mw : Rat) - (f.width : Rat)) / 2, y := yOffset } ::
      drawImagesFrom mw (yOffset + f.height) fs

/-- The placements produced by the `drawImages` chained-loading loop of
StitchEditor.tsx, in execution order: `yOffset` starts at 0 and the frames
are processed strictly in collection order (each decode is awaited before
the next begins). -/
def drawImages (frames : List CapturedFrame) : List Placement :=
  drawImagesFrom (maxWidth frames) 0 frames

/-- A drawing command issued against the 2d context. -/
inductive DrawOp where
  | fillRect (style : String) (x y w h : Nat)
  | drawImage (dataUrl : String) (x : Rat) (y : Nat)
deriving Repr, DecidableEq

/-- The state of the hidden canvas element: its dimensions and the drawing
commands applied since the surface was last reset. Identical command lists
on identically sized canvases denote identical pixel rasters, hence
identical `toDataURL` outputs. -/
structure Canvas where
  width : Nat
  height : Nat
  ops : List DrawOp
deriving Repr, DecidableEq

/-- Assigning `canvas.width` / `canvas.height` (StitchEditor.tsx lines
41-42) resets the drawing surface: all previously drawn content is
discarded. -/
def setCanvasSize (_c : Canvas) (w h : Nat) : Canvas :=
  { width := w, height := h, ops := [] }

/-- The render effect of StitchEditor.tsx on the hidden canvas, following
the corrected sequential-await path the specification adopts (the abandoned,
unawaited `forEach` path draws no commands that survive into the published
image under the adopted semantics and is excluded):
empty collection: publish no composite (`setStitchedImage(null)`) and do not
touch the canvas; otherwise set the canvas to `maxWidth x totalHeight`
(resetting it), fill the background black, then draw every frame at the
offsets computed by `drawImages`. The result is the canvas state that
`canvas.toDataURL` encodes. -/
def renderStitched (c : Canvas) (frames : List CapturedFrame) : Option Canvas :=
  if frames.isEmpty then
    none
  else
    let mw := maxWidth frames
    let th := totalHeight frames
    let c1 := setCanvasSize c mw th
    let c2 : Canvas :=
      { c1 with ops := c1.ops ++ [DrawOp.fillRect "#000" 0 0 mw th] }
    some { c2 with
            ops := c2.ops ++
              (drawImages frames).map
                (fun p => DrawOp.drawImage p.frame.dataUrl p.x p.y) }

/-! ## App.tsx : collection operations -/

/-- `handleDeleteFrame` (App.tsx lines 39-41):
`prev.filter(f => f.id !== id)`. -/
def handleDeleteFrame (frames : List CapturedFrame) (id : String) :
    List CapturedFrame :=
  frames.filter (fun f => f.id != id)

/-- JS `Array.prototype.findIndex`, which returns the index of the first
match and -1 when there is none; the -1 outcome is modelled as `none`. -/
def findIndex (p : α → Bool) : List α → Option Nat
  | [] => none
  | a :: l => if p a then some 0 else (findIndex p l).map (fun n => n + 1)

/-- The destructuring swap statement of App.tsx line 52,
`[newFrames[idx], newFrames[swapIdx]] = [newFrames[swapIdx], newFrames[idx]]`:
both right-hand values are read from the original sequence before either
assignment happens. -/
def swapEntries (l : List CapturedFrame) (i j : Nat) : List CapturedFrame :=
  (l.set i (l.getD j default)).set j (l.getD i default)

/-- `handleReorderFrame` (App.tsx lines 43-56): find the index of the frame
with the given id (no-op when absent); compute the neighbour index
(`idx - 1` for up, `idx + 1` for down, as a possibly negative integer);
when the neighbour index is in bounds, exchange the two entries, otherwise
return the collection unchanged as a sequence. -/
def handleReorderFrame (frames : List CapturedFrame) (id : String)
    (direction : Direction) : List CapturedFrame :=
  match findIndex (fun f => f.id == id) frames with
  | none => frames
  | some idx =>
    let swapIdx : Int :=
      match direction with
      | Direction.up => (idx : Int) - 1
      | Direction.down => (idx : Int) + 1
    if 0 ≤ swapIdx ∧ swapIdx < (frames.length : Int) then
      swapEntries frames idx swapIdx.toNat
    else
      frames

/-! ## CaptureStage.tsx : capture -/

/-- `generateId` (CaptureStage.tsx line 7):
`Math.random().toString(36).substr(2, 9)`. The id of the n-th call is a
function of the n-th `Math.random` draw alone; `draws` is the sequence of
resulting strings. Nothing in the code constrains successive draws to
differ, and the result is never checked against ids already in the
collection. -/
def generateId (draws : Nat → String) (n : Nat) : String :=
  draws n

/-- `setFrames(prev => [...prev, newFrame])` inside `captureFrame`
(CaptureStage.tsx lines 80-92): a functional state update appending the new
frame to the latest frames state. -/
def captureFrame (frames : List CapturedFrame) (newFrame : CapturedFrame) :
    List CapturedFrame :=
  frames ++ [newFrame]

/-- Outcome of one Single-mode trigger: the component frames state after the
event settles, the collection passed to `onCaptureFrames`, and whether the
finish callback ran. -/
structure SingleTriggerOutcome where
  stateAfter : List CapturedFrame
  handedOff : List CapturedFrame
  finished : Bool
deriving Repr, DecidableEq

/-- The Single-mode button handler (CaptureStage.tsx line 168):
`() => { captureFrame(); setTimeout(() => handleFinish(), 200); }`.
`rendered` is the value of the `frames` state constant in the render that
installed this handler. `captureFrame` appends the new frame through a
functional `setFrames` update, so the live state becomes
`rendered ++ [newFrame]`. `handleFinish` (lines 110-113) is the constant
defined in that same render; its body calls `onCaptureFrames(frames)` where
`frames` is that render-time constant, so the collection handed off is
`rendered`, not the updated state: the timeout only delays the call, it does
not rebind the closure to a later render. -/
def singleModeTrigger (rendered : List CapturedFrame)
    (newFrame : CapturedFrame) : SingleTriggerOutcome :=
  { stateAfter := captureFrame rendered newFrame
  , handedOff := rendered
  , finished := true }

/-! ## geminiService.ts : response handling -/

/-- A JavaScript value as relevant to the response handling: the values
`JSON.parse` can produce, plus `undefined` for absent properties. -/
inductive JsValue where
  | undefined
  | null
  | bool (b : Bool)
  | num (q : Rat)
  | str (s : String)
  | obj (fields : List (String × JsValue))
deriving Repr

/-- JavaScript truthiness of a value, as used by the `||` operator. -/
def truthy : JsValue → Bool
  | JsValue.undefined => false
  | JsValue.null => false
  | JsValue.bool b => b
  | JsValue.num q => q != 0
  | JsValue.str s => s != ""
  | JsValue.obj _ => true

/-- JavaScript `a || b`: `a` when truthy, otherwise `b`. -/
def jsOr (a b : JsValue) : JsValue :=
  if truthy a then a else b

/-- Property lookup in an object field list; absent keys yield
`undefined`. -/
def lookupField : List (String × JsValue) → String → JsValue
  | [], _ => JsValue.undefined
  | (k, v) :: rest, key => if k = key then v else lookupField rest key

/-- Property access `v[key]` on a value that is not `null`/`undefined`
(those two throw and are handled at the call site): objects look the key
up, primitives yield `undefined`. -/
def getProp : JsValue → String → JsValue
  | JsValue.obj fields, key => lookupField fields key
  | _, _ => JsValue.undefined

/-- `AnalysisResult` from types.ts; the fields hold the JavaScript values
the service actually stores (the TS optional-string type is not enforced at
runtime), with `undefined` for an absent field. -/
structure AnalysisResult where
  text : JsValue := JsValue.undefined
  summary : JsValue := JsValue.undefined
  code : JsValue := JsValue.undefined
deriving Repr

/-- The response handling of `analyzeScreenshot` (geminiService.ts lines
36-49). `text` is `response.text` (`none` models `undefined`); `parsed`
models the outcome of `JSON.parse(text)`: `none` when it throws, `some v`
when it returns the value `v`. If `!text` (absent or empty) the function
returns `summary: "No analysis generated."`. Otherwise, when parsing throws
the raw text becomes the summary; when parsing returns `null` (the text
`"null"` is valid JSON) the property access `json.summary` throws and the
same catch block returns the raw text; when parsing returns any other
value, the result takes `json.summary || json.description` as summary and
`json.code`, `json.text` verbatim. -/
def analyzeResponseText (text : Option String) (parsed : Option JsValue) :
    AnalysisResult :=
  match text with
  | none => { summary := JsValue.str "No analysis generated." }
  | some t =>
    if t = "" then
      { summary := JsValue.str "No analysis generated." }
    else
      match parsed with
      | none => { summary := JsValue.str t }
      | some json =>
        match json with
        | JsValue.null => { summary := JsValue.str t }
        | JsValue.undefined => { summary := JsValue.str t }
        | j =>
          { summary := jsOr (getProp j "summary") (getProp j "description")
          , code := getProp j "code"
          , text := getProp j "text" }

/-- Modelled from the spec: the summary-selection rule exactly as the
specification words it, for comparison with the implementation — the result
takes summary from the summary field of the JSON object, with the field
name description accepted as a synonym for summary when summary is absent
(i.e. when the object has no summary key at all). -/
def specSummary (j : JsValue) : JsValue :=
  match j with
  | JsValue.obj fields =>
    if (fields.map Prod.fst).contains "summary" then
      lookupField fields "summary"
    else
      lookupField fields "description"
  | _ => JsValue.undefined

/-! ## Reachable collections -/

/-- The frame collections reachable in a session, for a given sequence
`draws` of `generateId` outputs: the session starts empty; `captureFrame`
appends a frame whose id is the next generator output (the remaining fields
come from the current video frame and clock); the editor may delete by id
or swap with a neighbour at any time. The second component counts the
`generateId` calls made so far. -/
inductive Reachable (draws : Nat → String) :
    List CapturedFrame → Nat → Prop where
  | start : Reachable draws [] 0
  | capture {l : List CapturedFrame} {n : Nat}
      (dataUrl : String) (w h ts : Nat) :
      Reachable draws l n →
      Reachable draws
        (captureFrame l
          { id := generateId draws n, dataUrl := dataUrl
          , width := w, height := h, timestamp := ts })
        (n + 1)
  | delete {l : List CapturedFrame} {n : Nat} (id : String) :
      Reachable draws l n → Reachable draws (handleDeleteFrame l id) n
  | swap {l : List CapturedFrame} {n : Nat} (id : String) (dir : Direction) :
      Reachable draws l n → Reachable draws (handleReorderFrame l id dir) n

/-! ## Concrete frames used in the scenario statements -/

/-- Frame A of the specification scenario: 200 x 100. -/
def frameA : CapturedFrame :=
  { id := "A", dataUrl := "urlA", width := 200, height := 100, timestamp := 0 }

/-- Frame B of the specification scenario: 300 x 150. -/
def frameB : CapturedFrame :=
  { id := "B", dataUrl := "urlB", width := 300, height := 150, timestamp := 1 }

/-! ## Helper lemmas -/

theorem foldl_add_height (l : List CapturedFrame) (a : Nat) :
    l.foldl (fun acc f => acc + f.height) a =
      a + (l.map (fun f => f.height)).sum := by
  induction l generalizing a with
  | nil => simp
  | cons f t ih => simp [ih, Nat.add_assoc]

theorem totalHeight_eq_sum (l : List CapturedFrame) :
    totalHeight l = (l.map (fun f => f.height)).sum := by
  simpa using foldl_add_height l 0

theorem foldl_max_shift (xs : List Nat) (a : Nat) :
    xs.foldl max a = max a (xs.foldl max 0) := by
  induction xs generalizing a with
  | nil => simp
  | cons x t ih =>
    show t.foldl max (max a x) = max a (t.foldl max (max 0 x))
    rw [ih (max a x), ih (max 0 x)]
    omega

theorem foldl_max_mem (xs : List Nat) (h : xs ≠ []) :
    xs.foldl max 0 ∈ xs := by
  induction xs with
  | nil => exact absurd rfl h
  | cons x t ih =>
    have hx : (x :: t).foldl max 0 = max x (t.foldl max 0) := by
      show t.foldl max (max 0 x) = _
      rw [foldl_max_shift]
      omega
    rw [hx]
    cases t with
    | nil => simp
    | cons y u =>
      rcases max_choice x ((y :: u).foldl max 0) with h1 | h1 <;> rw [h1]
      · exact List.mem_cons_self _ _
      · exact List.mem_cons_of_mem _ (ih (by simp))

theorem le_foldl_max (xs : List Nat) (a : Nat) :
    a ≤ xs.foldl max a ∧ ∀ x ∈ xs, x ≤ xs.foldl max a := by
  induction xs generalizing a with
  | nil => simp
  | cons x t ih =>
    refine ⟨?_, ?_⟩
    · calc a ≤ max a x := le_max_left _ _
        _ ≤ t.foldl max (max a x) := (ih (max a x)).1
    · intro y hy
      rcases List.mem_cons.mp hy with rfl | hy
      · calc y ≤ max a y := le_max_right _ _
          _ ≤ t.foldl max (max a y) := (ih (max a y)).1
      · exact (ih (max a x)).2 y hy

/-! ## C2 -/

/-- C2: for every non-empty frame collection, the composite width computed
by the stitch render is the maximum of the individual frame widths (it is
one of the widths and bounds them all) and the composite height is the
exact sum of the individual frame heights. -/
theorem composite_dimensions (frames : List CapturedFrame)
    (h : frames ≠ []) :
    maxWidth frames ∈ frames.map (fun f => f.width) ∧
    (∀ w ∈ frames.map (fun f => f.width), w ≤ maxWidth frames) ∧
    totalHeight frames = (frames.map (fun f => f.height)).sum := by
  refine ⟨foldl_max_mem _ (by simpa using h), ?_, totalHeight_eq_sum frames⟩
  intro w hw
  exact (le_foldl_max (frames.map (fun f => f.width)) 0).2 w hw

/-- Witness for C2 at the two-frame scenario collection. -/
theorem composite_dimensions_witness :
    maxWidth [frameA, frameB] ∈ [frameA, frameB].map (fun f => f.width) ∧
    (∀ w ∈ [frameA, frameB].map (fun f => f.width),
        w ≤ maxWidth [frameA, frameB]) ∧
    totalHeight [frameA, frameB] =
      ([frameA, frameB].map (fun f => f.height)).sum :=
  composite_dimensions [frameA, frameB] (by simp)

/-! ## C7 -/

/-- C7: for the empty frame collection the stitch engine produces no
composite at all (the published image is `none`, not a zero-sized canvas),
while every non-empty collection does produce one. -/
theorem empty_collection_no_composite (c : Canvas) :
    renderStitched c [] = none ∧
    ∀ frames : List CapturedFrame, frames ≠ [] →
      (renderStitched c frames).isSome = true := by
  refine ⟨rfl, ?_⟩
  intro frames h
  simp [renderStitched, h]

/-- Witness for C7 on a fresh canvas and the one-frame collection. -/
theorem empty_collection_no_composite_witness :
    renderStitched { width := 0, height := 0, ops := [] } [] = none ∧
    (renderStitched { width := 0, height := 0, ops := [] }
        [frameA]).isSome = true :=
  ⟨(empty_collection_no_composite _).1,
   (empty_collection_no_composite _).2 [frameA] (by simp)⟩

/-! ## C3 -/

/-- C3: the stitch render is deterministic in the collection alone — the
canvas state it produces (and hence any byte encoding of it, such as the
PNG data URL) does not depend on what was previously on the canvas, because
assigning the canvas dimensions resets the surface; re-rendering an
unchanged collection therefore yields a byte-identical composite. -/
theorem render_deterministic (encode : Canvas → List Nat)
    (c1 c2 : Canvas) (frames : List CapturedFrame) :
    renderStitched c1 frames = renderStitched c2 frames ∧
    (renderStitched c1 frames).map encode =
      (renderStitched c2 frames).map encode := by
  have h : renderStitched c1 frames = renderStitched c2 frames := rfl
  exact ⟨h, by rw [h]⟩

/-! ## C1 -/

theorem drawImagesFrom_length (mw y : Nat) (fs : List CapturedFrame) :
    (drawImagesFrom mw y fs).length = fs.length := by
  induction fs generalizing y with
  | nil => rfl
  | cons f t ih => simp [drawImagesFrom, ih]

theorem drawImagesFrom_getElem? (mw : Nat) (fs : List CapturedFrame)
    (y i : Nat) :
    (drawImagesFrom mw y fs)[i]? =
      (fs[i]?).map (fun f =>
        { frame := f
        , x := ((mw : Rat) - (f.width : Rat)) / 2
        , y := y + ((fs.take i).map (fun g => g.height)).sum }) := by
  induction fs generalizing y i with
  | nil => simp [drawImagesFrom]
  | cons f t ih =>
    cases i with
    | zero => simp [drawImagesFrom]
    | succ i =>
      simp only [drawImagesFrom, List.getElem?_cons_succ, ih (y + f.height) i,
        List.take_succ_cons, List.map_cons, List.sum_cons]
      cases h : t[i]? <;> simp [Nat.add_assoc]

/-- C1: the sequential stitch loop places the frames in exactly collection
order — the i-th placement holds the i-th frame of the collection at
horizontal offset `(canvasWidth - frame.width) / 2` and vertical offset
equal to the sum of the heights of all frames strictly preceding it; in
particular, for the scenario frames A (200 x 100) and B (300 x 150) the
composite is 300 x 250 with A placed at x = 50, y = 0 and B at x = 0,
y = 100. -/
theorem stitch_layout (frames : List CapturedFrame) (i : Nat)
    (hi : i < frames.length) :
    (drawImages frames).length = frames.length ∧
    (drawImages frames)[i]? =
      some { frame := frames.getD i default
           , x := ((maxWidth frames : Rat) -
               ((frames.getD i default).width : Rat)) / 2
           , y := ((frames.take i).map (fun f => f.height)).sum } ∧
    drawImages [frameA, frameB] =
      [ { frame := frameA, x := 50, y := 0 }
      , { frame := frameB, x := 0, y := 100 } ] ∧
    maxWidth [frameA, frameB] = 300 ∧
    totalHeight [frameA, frameB] = 250 := by
  refine ⟨drawImagesFrom_length _ _ _, ?_, ?_, by rfl, by rfl⟩
  · rw [drawImages, drawImagesFrom_getElem?]
    rw [List.getElem?_eq_getElem hi]
    simp [List.getD_eq_getElem?_getD, List.getElem?_eq_getElem hi]
  · simp only [drawImages, maxWidth, drawImagesFrom, frameA, frameB]
    norm_num

/-- Witness for C1 at the scenario collection, index 1. -/
theorem stitch_layout_witness :
    (drawImages [frameA, frameB]).length =
      ([frameA, frameB] : List CapturedFrame).length ∧
    (drawImages [frameA, frameB])[1]? =
      some { frame := ([frameA, frameB] : List CapturedFrame).getD 1 default
           , x := ((maxWidth [frameA, frameB] : Rat) -
               ((([frameA, frameB] : List CapturedFrame).getD 1
                  default).width : Rat)) / 2
           , y := ((([frameA, frameB] : List CapturedFrame).take 1).map
               (fun f => f.height)).sum } ∧
    drawImages [frameA, frameB] =
      [ { frame := frameA, x := 50, y := 0 }
      , { frame := frameB, x := 0, y := 100 } ] ∧
    maxWidth [frameA, frameB] = 300 ∧
    totalHeight [frameA, frameB] = 250 :=
  stitch_layout [frameA, frameB] 1 (by simp)

/-! ## C6 -/

theorem delete_of_no_match (l : List CapturedFrame) (id : String)
    (h : ∀ f ∈ l, f.id ≠ id) : handleDeleteFrame l id = l := by
  apply List.filter_eq_self.mpr
  intro f hf
  simpa using h f hf

theorem sum_height_delete (l : List CapturedFrame) (id : String)
    (hnd : (l.map (fun f => f.id)).Nodup) (f : CapturedFrame)
    (hf : f ∈ l) (hid : f.id = id) :
    (l.map (fun g => g.height)).sum =
      ((handleDeleteFrame l id).map (fun g => g.height)).sum + f.height := by
  induction l with
  | nil => cases hf
  | cons a t ih =>
    simp only [List.map_cons, List.nodup_cons] at hnd
    rcases List.mem_cons.mp hf with rfl | hft
    · have ht : handleDeleteFrame t id = t := by
        apply delete_of_no_match
        intro g hg hgid
        exact hnd.1 (by
          rw [hid, ← hgid]
          exact List.mem_map_of_mem (fun x => x.id) hg)
      have hdrop : handleDeleteFrame (f :: t) id = handleDeleteFrame t id := by
        simp [handleDeleteFrame, hid]
      rw [hdrop, ht]
      simp [Nat.add_comm]
    · have ha : a.id ≠ id := by
        intro hcontra
        exact hnd.1 (by
          rw [hcontra, ← hid]
          exact List.mem_map_of_mem (fun x => x.id) hft)
      have hkeep : handleDeleteFrame (a :: t) id =
          a :: handleDeleteFrame t id := by
        simp [handleDeleteFrame, ha]
      rw [hkeep]
      simp only [List.map_cons, List.sum_cons]
      rw [ih hnd.2 hft]
      omega

/-- C6: `delete(id)` removes the frame with matching id when present and is
a no-op when absent; the remaining frames keep their relative order (the
result is a sublist of the input) and none of them has the deleted id;
under the no-duplicate-id invariant, the composite height shrinks by
exactly the deleted frame's height. -/
theorem delete_frame (l : List CapturedFrame) (id : String) :
    ((∀ f ∈ l, f.id ≠ id) → handleDeleteFrame l id = l) ∧
    (handleDeleteFrame l id).Sublist l ∧
    (∀ f ∈ handleDeleteFrame l id, f.id ≠ id) ∧
    ((l.map (fun f => f.id)).Nodup →
      ∀ f ∈ l, f.id = id →
        totalHeight l = totalHeight (handleDeleteFrame l id) + f.height) := by
  refine ⟨delete_of_no_match l id, List.filter_sublist l, ?_, ?_⟩
  · intro f hf
    have := (List.mem_filter.mp hf).2
    simpa using this
  · intro hnd f hf hid
    rw [totalHeight_eq_sum, totalHeight_eq_sum]
    exact sum_height_delete l id hnd f hf hid

/-- Witness for C6: deleting the absent id "C" is a no-op on `[frameB]`;
deleting "A" from the scenario collection is a sublist and shrinks the
total height by exactly the height of frame A. -/
theorem delete_frame_witness :
    handleDeleteFrame [frameB] "C" = [frameB] ∧
    (handleDeleteFrame [frameA, frameB] "A").Sublist [frameA, frameB] ∧
    totalHeight [frameA, frameB] =
      totalHeight (handleDeleteFrame [frameA, frameB] "A") + frameA.height :=
  ⟨(delete_frame [frameB] "C").1 (by decide),
   (delete_frame [frameA, frameB] "A").2.1,
   (delete_frame [frameA, frameB] "A").2.2.2 (by decide) frameA
     (by simp) rfl⟩

/-! ## C5 -/

theorem findIndex_eq_none_iff (p : α → Bool) (l : List α) :
    findIndex p l = none ↔ ∀ a ∈ l, p a = false := by
  induction l with
  | nil => simp [findIndex]
  | cons a t ih => by_cases h : p a <;> simp [findIndex, h, ih]

theorem findIndex_some_lt (p : α → Bool) (l : List α) (i : Nat)
    (h : findIndex p l = some i) : i < l.length := by
  induction l generalizing i with
  | nil => simp [findIndex] at h
  | cons a t ih =>
    by_cases hp : p a
    · simp only [findIndex, if_pos hp, Option.some.injEq] at h
      simp [← h]
    · simp only [findIndex, if_neg hp, Option.map_eq_some'] at h
      obtain ⟨n, hn, rfl⟩ := h
      have := ih n hn
      simp
      omega

theorem getD_eq_getElem (l : List CapturedFrame) (n : Nat)
    (h : n < l.length) : l.getD n default = l[n] := by
  rw [List.getD_eq_getElem?_getD, List.getElem?_eq_getElem h]
  rfl

theorem swapEntries_length (l : List CapturedFrame) (i j : Nat) :
    (swapEntries l i j).length = l.length := by
  simp [swapEntries]

theorem swapEntries_getElem?_fst (l : List CapturedFrame) (i j : Nat)
    (hi : i < l.length) (hj : j < l.length) (hij : i ≠ j) :
    (swapEntries l i j)[i]? = l[j]? := by
  rw [swapEntries, List.getElem?_set_ne (Ne.symm hij),
    List.getElem?_set_eq_of_lt _ hi, getD_eq_getElem l j hj,
    List.getElem?_eq_getElem hj]

theorem swapEntries_getElem?_snd (l : List CapturedFrame) (i j : Nat)
    (hi : i < l.length) (hj : j < l.length) :
    (swapEntries l i j)[j]? = l[i]? := by
  rw [swapEntries, List.getElem?_set_eq_of_lt _ (by simpa using hj),
    getD_eq_getElem l i hi, List.getElem?_eq_getElem hi]

theorem swapEntries_getElem?_other (l : List CapturedFrame) (i j k : Nat)
    (hki : k ≠ i) (hkj : k ≠ j) :
    (swapEntries l i j)[k]? = l[k]? := by
  rw [swapEntries, List.getElem?_set_ne (Ne.symm hkj),
    List.getElem?_set_ne (Ne.symm hki)]

/-- C5: `swap(id, direction)` is a no-op (the collection is unchanged as a
sequence) when no frame has the given id, when the frame is first and the
direction is up, or when the frame is last and the direction is down;
otherwise it exchanges the frame at the found index with its immediate
neighbour in the requested direction (the predecessor for up, the successor
for down), leaving the length and every other position unchanged. -/
theorem reorder_frame (l : List CapturedFrame) (id : String)
    (dir : Direction) :
    ((∀ f ∈ l, f.id ≠ id) → handleReorderFrame l id dir = l) ∧
    ∀ idx, findIndex (fun f => f.id == id) l = some idx →
      (dir = Direction.up → idx = 0 → handleReorderFrame l id dir = l) ∧
      (dir = Direction.down → idx = l.length - 1 →
        handleReorderFrame l id dir = l) ∧
      ∀ s : Nat,
        ((dir = Direction.up ∧ idx = s + 1) ∨
         (dir = Direction.down ∧ s = idx + 1 ∧ s < l.length)) →
        (handleReorderFrame l id dir).length = l.length ∧
        (handleReorderFrame l id dir)[idx]? = l[s]? ∧
        (handleReorderFrame l id dir)[s]? = l[idx]? ∧
        ∀ k : Nat, k ≠ idx → k ≠ s →
          (handleReorderFrame l id dir)[k]? = l[k]? := by
  constructor
  · intro h
    have hnone : findIndex (fun f => f.id == id) l = none := by
      rw [findIndex_eq_none_iff]
      intro a ha
      simpa using h a ha
    simp [handleReorderFrame, hnone]
  · intro idx hfi
    have hlt : idx < l.length := findIndex_some_lt _ _ _ hfi
    refine ⟨?_, ?_, ?_⟩
    · rintro rfl rfl
      simp only [handleReorderFrame, hfi]
      split
      · rename_i hcond
        omega
      · rfl
    · rintro rfl hidx
      simp only [handleReorderFrame, hfi]
      split
      · rename_i hcond
        omega
      · rfl
    · intro s hs
      have hbranch : handleReorderFrame l id dir = swapEntries l idx s ∧
          s < l.length := by
        rcases hs with ⟨hd, hidx⟩ | ⟨hd, hs1, hs2⟩
        · subst hd
          subst hidx
          have hslt : s < l.length := by omega
          simp only [handleReorderFrame, hfi]
          rw [if_pos (by omega)]
          have htn : (((s + 1 : Nat) : Int) - 1).toNat = s := by omega
          rw [htn]
          exact ⟨rfl, hslt⟩
        · subst hd
          subst hs1
          simp only [handleReorderFrame, hfi]
          rw [if_pos (by omega)]
          have htn : (((idx : Nat) : Int) + 1).toNat = idx + 1 := by omega
          rw [htn]
          exact ⟨rfl, hs2⟩
      have hne : idx ≠ s := by rcases hs with ⟨_, h⟩ | ⟨_, h, _⟩ <;> omega
      rw [hbranch.1]
      exact ⟨swapEntries_length l idx s,
        swapEntries_getElem?_fst l idx s hlt hbranch.2 hne,
        swapEntries_getElem?_snd l idx s hlt hbranch.2,
        fun k hk1 hk2 => swapEntries_getElem?_other l idx s k hk1 hk2⟩

/-- Witness for C5: in the scenario collection, swapping frame B upwards
exchanges it with frame A; swapping an absent id and swapping frame A
upwards are no-ops. -/
theorem reorder_frame_witness :
    handleReorderFrame [frameA, frameB] "C" Direction.up = [frameA, frameB] ∧
    handleReorderFrame [frameA, frameB] "A" Direction.up = [frameA, frameB] ∧
    (handleReorderFrame [frameA, frameB] "B" Direction.up).length =
      ([frameA, frameB] : List CapturedFrame).length ∧
    (handleReorderFrame [frameA, frameB] "B" Direction.up)[1]? =
      ([frameA, frameB] : List CapturedFrame)[0]? ∧
    (handleReorderFrame [frameA, frameB] "B" Direction.up)[0]? =
      ([frameA, frameB] : List CapturedFrame)[1]? := by
  have h1 := (reorder_frame [frameA, frameB] "C" Direction.up).1
    (by decide)
  have h2 := ((reorder_frame [frameA, frameB] "A" Direction.up).2 0
    (by decide)).1 rfl rfl
  have h3 := ((reorder_frame [frameA, frameB] "B" Direction.up).2 1
    (by decide)).2.2 0 (Or.inl ⟨rfl, rfl⟩)
  exact ⟨h1, h2, h3.1, h3.2.1, h3.2.2.1⟩

/-! ## C8 -/

theorem perm_cons_set (t : List CapturedFrame) (m : Nat)
    (hm : m < t.length) (a : CapturedFrame) :
    (t.getD m default :: t.set m a).Perm (a :: t) := by
  induction t generalizing m with
  | nil => simp at hm
  | cons b u ih =>
    cases m with
    | zero =>
      simp only [List.getD_cons_zero, List.set_cons_zero]
      exact List.Perm.swap a b u
    | succ m =>
      have hm' : m < u.length := by simpa using hm
      simp only [List.getD_cons_succ, List.set_cons_succ]
      exact ((List.Perm.swap b (u.getD m default) (u.set m a)).trans
        ((ih m hm').cons b)).trans (List.Perm.swap a b u)

theorem swapEntries_perm_lt (l : List CapturedFrame) (i j : Nat)
    (hij : i < j) (hj : j < l.length) :
    (swapEntries l i j).Perm l := by
  induction l generalizing i j with
  | nil => simp at hj
  | cons b t ih =>
    obtain ⟨m, rfl⟩ : ∃ m, j = m + 1 := ⟨j - 1, by omega⟩
    have hm : m < t.length := by simpa using hj
    cases i with
    | zero =>
      simp only [swapEntries, List.getD_cons_succ, List.getD_cons_zero,
        List.set_cons_zero, List.set_cons_succ]
      exact perm_cons_set t m hm b
    | succ i =>
      simp only [swapEntries, List.getD_cons_succ, List.set_cons_succ]
      exact (ih i m (by omega) hm).cons b

theorem swapEntries_perm (l : List CapturedFrame) (i j : Nat)
    (hi : i < l.length) (hj : j < l.length) (hij : i ≠ j) :
    (swapEntries l i j).Perm l := by
  rcases Nat.lt_or_ge i j with h | h
  · exact swapEntries_perm_lt l i j h hj
  · have hlt : j < i := lt_of_le_of_ne h (Ne.symm hij)
    rw [swapEntries, List.set_comm _ _ _ hij]
    exact swapEntries_perm_lt l j i hlt hi

theorem reorder_perm (l : List CapturedFrame) (id : String)
    (dir : Direction) : (handleReorderFrame l id dir).Perm l := by
  cases hfi : findIndex (fun f => f.id == id) l with
  | none =>
    simp only [handleReorderFrame, hfi]
    exact List.Perm.refl l
  | some idx =>
    have hlt : idx < l.length := findIndex_some_lt _ _ _ hfi
    cases dir with
    | up =>
      simp only [handleReorderFrame, hfi]
      split
      · rename_i hcond
        exact swapEntries_perm l idx _ hlt (by omega) (by omega)
      · exact List.Perm.refl l
    | down =>
      simp only [handleReorderFrame, hfi]
      split
      · rename_i hcond
        exact swapEntries_perm l idx _ hlt (by omega) (by omega)
      · exact List.Perm.refl l

/-- C8 (amended): the collection operations preserve the no-duplicate-id
invariant — delete and swap unconditionally, capture exactly when the
freshly generated id differs from every id already in the collection. The
code does not itself enforce that freshness; see the counterexample for a
repeating generator. -/
theorem operations_preserve_nodup_ids (l : List CapturedFrame)
    (h : (l.map (fun f => f.id)).Nodup) :
    (∀ id, ((handleDeleteFrame l id).map (fun f => f.id)).Nodup) ∧
    (∀ id dir,
      ((handleReorderFrame l id dir).map (fun f => f.id)).Nodup) ∧
    (∀ f : CapturedFrame, f.id ∉ l.map (fun g => g.id) →
      ((captureFrame l f).map (fun g => g.id)).Nodup) := by
  refine ⟨?_, ?_, ?_⟩
  · intro id
    exact h.sublist ((List.filter_sublist l).map (fun f => f.id))
  · intro id dir
    exact (((reorder_perm l id dir).map (fun f => f.id)).nodup_iff).mpr h
  · intro f hf
    simp only [captureFrame, List.map_append, List.map_cons, List.map_nil]
    rw [List.nodup_append]
    exact ⟨h, List.nodup_singleton _, by simpa using hf⟩

/-- Witness for C8 (amended) on the scenario collection. -/
theorem operations_preserve_nodup_ids_witness :
    ((handleDeleteFrame [frameA, frameB] "A").map
        (fun f => f.id)).Nodup ∧
    ((handleReorderFrame [frameA, frameB] "B" Direction.up).map
        (fun f => f.id)).Nodup ∧
    ((captureFrame [frameA] frameB).map (fun g => g.id)).Nodup := by
  have h := operations_preserve_nodup_ids [frameA, frameB] (by decide)
  have h2 := operations_preserve_nodup_ids [frameA] (by decide)
  exact ⟨h.1 "A", h.2.1 "B" Direction.up, h2.2.2 frameB (by decide)⟩

/-- First frame captured from a generator stream that yields "a" twice. -/
def dupFrame0 : CapturedFrame :=
  { id := "a", dataUrl := "u", width := 1, height := 1, timestamp := 0 }

/-- Second frame captured from the same repeating generator stream. -/
def dupFrame1 : CapturedFrame :=
  { id := "a", dataUrl := "u", width := 1, height := 1, timestamp := 1 }

/-- C8 counterexample: `generateId` is a bare function of a `Math.random`
draw and the code never checks it against the ids already in the
collection, so with a draw sequence that repeats (which nothing rules out)
two captures reach a collection with duplicate ids. -/
theorem duplicate_ids_reachable :
    Reachable (fun _ => "a") [dupFrame0, dupFrame1] 2 ∧
    ¬ (([dupFrame0, dupFrame1].map (fun f => f.id)).Nodup) := by
  constructor
  · have h0 : Reachable (fun _ => "a") [] 0 := Reachable.start
    have h1 := Reachable.capture "u" 1 1 0 h0
    have h2 := Reachable.capture "u" 1 1 1 h1
    simpa [captureFrame, generateId, dupFrame0, dupFrame1] using h2
  · decide

/-! ## C4 -/

/-- C4: evaluating the Single-mode trigger at an empty session shows the
divergence — the capture does append exactly one frame to the live state
and the finish callback does run, but the collection handed to
`onCaptureFrames` is the stale render-time value, i.e. empty rather than
the one-frame collection the claim requires. -/
theorem single_trigger_hands_off_stale :
    (singleModeTrigger [] frameA).stateAfter = [frameA] ∧
    (singleModeTrigger [] frameA).finished = true ∧
    (singleModeTrigger [] frameA).handedOff = [] ∧
    (singleModeTrigger [] frameA).handedOff.length ≠ 1 := by
  refine ⟨rfl, rfl, rfl, by decide⟩

/-! ## C10 -/

/-- C10: when the gateway response carries no text at all (absent or the
empty string), the analysis returns `summary: "No analysis generated."`,
regardless of the parse outcome. -/
theorem no_text_default (t : Option String) (parsed : Option JsValue)
    (h : t = none ∨ t = some "") :
    analyzeResponseText t parsed =
      { summary := JsValue.str "No analysis generated." } := by
  rcases h with rfl | rfl <;> rfl

/-- Witness for C10 at an absent response text. -/
theorem no_text_default_witness :
    analyzeResponseText none none =
      { summary := JsValue.str "No analysis generated." } :=
  no_text_default none none (Or.inl rfl)

/-! ## C9 -/

/-- C9 counterexample: for the JSON object with a present but empty-string
`summary` field and `description` "d", the implementation publishes "d"
(because `||` falls back on any falsy value), while the claimed rule —
summary taken from the summary field, description only when summary is
absent — prescribes the empty string. -/
theorem summary_synonym_counterexample :
    (analyzeResponseText
        (some "\x7b\"summary\":\"\",\"description\":\"d\"\x7d")
        (some (JsValue.obj
          [("summary", JsValue.str ""),
           ("description", JsValue.str "d")]))).summary = JsValue.str "d" ∧
    specSummary (JsValue.obj
        [("summary", JsValue.str ""),
         ("description", JsValue.str "d")]) = JsValue.str "" ∧
    JsValue.str "d" ≠ JsValue.str "" := by
  refine ⟨rfl, rfl, ?_⟩
  intro h
  exact absurd (JsValue.str.inj h) (by decide)

/-- C9 (amended): for every non-empty response text, if the text parses as
a JSON object the summary is taken from the summary field whenever that
field's value is truthy, and from the description field whenever the
summary field is absent or falsy (e.g. the empty string); if the text does
not parse as JSON, the result is `summary: <raw response text>` rather
than an error. -/
theorem analyze_summary (t : String) (ht : t ≠ "") :
    (∀ fields : List (String × JsValue),
        truthy (lookupField fields "summary") = true →
          (analyzeResponseText (some t)
              (some (JsValue.obj fields))).summary =
            lookupField fields "summary") ∧
    (∀ fields : List (String × JsValue),
        truthy (lookupField fields "summary") = false →
          (analyzeResponseText (some t)
              (some (JsValue.obj fields))).summary =
            lookupField fields "description") ∧
    analyzeResponseText (some t) none = { summary := JsValue.str t } := by
  refine ⟨?_, ?_, ?_⟩
  · intro fields hf
    simp [analyzeResponseText, ht, jsOr, getProp, hf]
  · intro fields hf
    simp [analyzeResponseText, ht, jsOr, getProp, hf]
  · simp [analyzeResponseText, ht]

/-- Witness for C9 (amended): the non-JSON response "hello" yields
`summary: "hello"`, and a parsed object with a non-empty summary field
yields that summary. -/
theorem analyze_summary_witness :
    analyzeResponseText (some "hello") none =
      { summary := JsValue.str "hello" } ∧
    (analyzeResponseText (some "\x7b\"summary\":\"s\"\x7d")
        (some (JsValue.obj [("summary", JsValue.str "s")]))).summary =
      JsValue.str "s" := by
  refine ⟨(analyze_summary "hello" (by decide)).2.2,
    (analyze_summary "\x7b\"summary\":\"s\"\x7d" (by decide)).1
      [("summary", JsValue.str "s")] (by decide)⟩

end Capture
